import Mathlib

/-!
Verification of the row-placement / deduplication utilities of
`gs-sheets-form-utils` (`src/FormUtils.js`, current revision).

The spreadsheet host (Google Apps Script `Sheet`/`Range`/`LockService`/
`Utilities`) is modelled by a small state machine:

* a `Sheet` is a list of rows (1-indexed from the outside), each row a list
  of `Cell`s carrying a string value and a flag telling whether the cell has
  a checkbox data validation;
* `getLastRow`, `getMaxRows`, `insertRowBefore`, `insertRowAfter`,
  `deleteRow`, `getValues`-style reads follow the host's documented
  semantics (a cell counts as content iff its value is not the empty
  string; checkbox cells hold "TRUE"/"FALSE" and therefore count);
* the hash pipeline `Utilities.base64Encode ∘ Utilities.computeDigest enc`
  is an opaque parameter `hash : String → String`; everything the library
  adds in front of it (`slice(skip)` and `Array.join()`) is modelled
  exactly;
* the script lock is a boolean in the engine state; `waitLock` on a free
  lock succeeds, on a held lock it times out (the 300 s bound is irrelevant
  to the properties proved here);
* each collaborator call that can raise at run time (the duplicate check,
  the placement, `copyTo`, the digest write, the duplicate callback, the
  source-row deletion) has an error-injection flag in `FailSpec`, so that
  "step X raises" is expressible.

The functions `moveToFirstEmptyRow`, `copyToFirstEmptyRow`, `isDuplicate`,
`addDigest`, `sweep`, `getFirstEmptyRow`, `getRangesInUse`, `isRangeEmpty`
and `getDigest` are translated statement by statement from the source.
-/

namespace FormUtils

/-- One spreadsheet cell: its displayed value and whether it carries a
checkbox data validation (`getDataValidations`/`CHECKBOX` in the host). -/
structure Cell where
  value : String
  isCheckbox : Bool
deriving Repr, DecidableEq

/-- A sheet: the frozen (header) row count and the allocated grid rows,
row `r` (1-based) being `rows.getD (r-1) []`.  A missing/short row reads as
blank cells. -/
structure Sheet where
  frozenRows : Nat
  rows : List (List Cell)
deriving Repr, DecidableEq

/-- Default (blank, validation-free) cell. -/
def blankCell : Cell := ⟨"", false⟩

/-- Does a row contain any content?  (Host semantics: a cell counts iff its
value is non-empty; checkbox cells hold "TRUE"/"FALSE" and count.) -/
def rowHasContent (row : List Cell) : Bool := row.any (fun c => c.value ≠ "")

/-- 1-based index of the last list element satisfying `p` (0 if none).
Shared shape of the host's `getLastRow` and `getLastColumn`. -/
def lastIdxWhere (p : α → Bool) : List α → Nat
  | [] => 0
  | a :: as =>
    let n := lastIdxWhere p as
    if n = 0 then (if p a then 1 else 0) else n + 1

/-- Host `sheet.getLastRow()`: last row with content, 0 for an empty sheet. -/
def getLastRow (s : Sheet) : Nat := lastIdxWhere rowHasContent s.rows

/-- Host `sheet.getMaxRows()`: allocated grid height. -/
def getMaxRows (s : Sheet) : Nat := s.rows.length

/-- 1-based index of the last cell of a row with a non-empty value. -/
def lastCellIdx (row : List Cell) : Nat := lastIdxWhere (fun c => c.value ≠ "") row

/-- Host `sheet.getLastColumn()`: last column with content anywhere. -/
def getLastColumn (s : Sheet) : Nat := (s.rows.map lastCellIdx).foldr max 0

/-- Row `r` (1-based). -/
def rowAtN (s : Sheet) (r : Nat) : List Cell := s.rows.getD (r - 1) []

/-- Value of cell `(r, c)` (1-based). -/
def cellValue (s : Sheet) (r c : Nat) : String := ((rowAtN s r).getD (c - 1) blankCell).value

/-- First `n` values of a cell row (`range.getValues()[0]` over `n` columns;
cells beyond the stored row read as ""). -/
def rowValsOf : List Cell → Nat → List String
  | _, 0 => []
  | [], n + 1 => "" :: rowValsOf [] n
  | c :: cs, n + 1 => c.value :: rowValsOf cs n

/-- `sheet.getRange(r, 1, 1, n).getValues()[0]`. -/
def rowValuesN (s : Sheet) (r n : Nat) : List String := rowValsOf (rowAtN s r) n

/-- Column `c` values for rows 1..`n` (`sheet.getRange(1, c, n, 1).getValues()`,
flattened). -/
def colValues (s : Sheet) (c n : Nat) : List String :=
  (List.range n).map (fun j => cellValue s (j + 1) c)

/-- Host `sheet.insertRowBefore(r)`: a blank row appears at position `r`,
previous rows `r, r+1, …` shift down. -/
def insertRowBefore (s : Sheet) (r : Nat) : Sheet :=
  { s with rows := s.rows.take (r - 1) ++ [[]] ++ s.rows.drop (r - 1) }

/-- Host `sheet.insertRowAfter(r)`: a blank row appears at position `r+1`. -/
def insertRowAfter (s : Sheet) (r : Nat) : Sheet :=
  { s with rows := s.rows.take r ++ [[]] ++ s.rows.drop r }

/-- Host `sheet.deleteRow(r)`: row `r` is removed, later rows shift up. -/
def deleteRowSheet (s : Sheet) (r : Nat) : Sheet :=
  { s with rows := s.rows.take (r - 1) ++ s.rows.drop r }

/-- Write `vals` into the leading cells of a row (`copyTo` with
`contentsOnly:true`: values are overwritten, the destination keeps its own
validations; the row is extended if it is shorter than the data). -/
def writeVals : List Cell → List String → List Cell
  | cs, [] => cs
  | c :: cs, v :: vs => ⟨v, c.isCheckbox⟩ :: writeVals cs vs
  | [], v :: vs => ⟨v, false⟩ :: writeVals [] vs

/-- Overwrite the first `vals.length` values of row `r`. -/
def updateRowValues (s : Sheet) (r : Nat) (vals : List String) : Sheet :=
  { s with rows := s.rows.set (r - 1) (writeVals (rowAtN s r) vals) }

/-- Set one value in a cell row (0-based column), padding with blanks. -/
def setCellList : List Cell → Nat → String → List Cell
  | c :: cs, 0, v => ⟨v, c.isCheckbox⟩ :: cs
  | [], 0, v => [⟨v, false⟩]
  | c :: cs, n + 1, v => c :: setCellList cs n v
  | [], n + 1, v => blankCell :: setCellList [] n v

/-- `range.getCell(1, c).setValue(v)` on row `r` (1-based `r`, `c`). -/
def setCellValue (s : Sheet) (r c : Nat) (v : String) : Sheet :=
  { s with rows := s.rows.set (r - 1) (setCellList (rowAtN s r) (c - 1) v) }

/-! ## The digest pipeline (source: `getDigest`, lines 437-441)

`getDigest(range, skip, encoding)` is
`Utilities.base64Encode(Utilities.computeDigest(encoding, values.join()))`
with `values = range.getValues()[0].slice(skip)`.  The two `Utilities`
calls are host primitives; their composite is the parameter `hash`.
`Array.prototype.join()` (no argument) joins with the separator ",". -/

/-- JS `values.join()` — elements joined with ",". -/
def joinValues : List String → String
  | [] => ""
  | [v] => v
  | v :: vs => v ++ "," ++ joinValues vs

/-- `getDigest` on the value row: drop `skip` leading values, join, hash. -/
def getDigest (hash : String → String) (values : List String) (skip : Nat) : String :=
  hash (joinValues (values.drop skip))

/-! ## Errors raised by the library / host -/

/-- Which engine step an injected collaborator failure hits. -/
inductive StepId where
  | dup | place | copy | digestW | callback | delete
deriving Repr, DecidableEq

/-- Errors: a lock wait timing out, the explicit
`throw "Digest required for duplication check"` of `isDuplicate`, a host
range operation out of bounds, or an injected collaborator failure. -/
inductive Err where
  | lockTimeout
  | digestRequired
  | outOfBounds
  | injected (s : StepId)
deriving Repr, DecidableEq

deriving instance DecidableEq for Except

/-! ## `isRangeEmpty` (source lines 412-427) -/

/-- `isRangeEmpty(range, ignoreCheckbox)`: without the flag this is
`range.isBlank()` (every value empty); with it, a non-empty cell is
tolerated iff it has a checkbox data validation. -/
def isRangeEmpty (row : List Cell) (ignoreCheckbox : Bool) : Bool :=
  if !ignoreCheckbox then
    row.all (fun c => c.value = "")
  else
    row.all (fun c => c.value = "" || c.isCheckbox)

/-! ## `isDuplicate` (source lines 175-194) -/

/-- `isDuplicate(range, sheet, useDigest, last, skip)`: `last` defaults to
`sheet.getLastRow()`; an empty sheet is never a duplicate; in digest mode
the digest of the candidate row is searched in the column right after the
candidate's span; otherwise the function throws
"Digest required for duplication check". -/
def isDuplicate (hash : String → String) (rangeVals : List String) (sheet : Sheet)
    (useDigest : Bool) (lastArg : Option Nat) (skip : Nat) : Except Err Bool :=
  let last := lastArg.getD (getLastRow sheet)
  if last = 0 then .ok false
  else if useDigest then
    let digest := getDigest hash rangeVals skip
    let col := rangeVals.length + 1
    .ok ((colValues sheet col last).contains digest)
  else .error .digestRequired

/-! ## `getFirstEmptyRow` (source lines 267-300)

The two do/while scans are translated with an explicit fuel argument that
is always sufficient for the loops' actual ranges (the JS loops terminate
for the same reason); indices are JS numbers, so `Int`. -/

/-- JS `data[i]` for an `Int` index: `none` models `undefined`. -/
def jsAt (data : List String) (i : Int) : Option String :=
  if i < 0 then none else data.get? i.toNat

/-- Row `r` for an `Int` index (host `getRow(num)`; rows below 1 never get
read on the paths the source reaches). -/
def rowAt (s : Sheet) (r : Int) : List Cell :=
  if 1 ≤ r then rowAtN s r.toNat else []

/-- First scan: `do{ i--; }while(i>=min && data[i] === "")` with
`min = frozen + 1`. -/
def loop1Aux (data : List String) (frozen : Nat) : Nat → Int → Int
  | 0, i => i - 1
  | fuel + 1, i =>
    let i' := i - 1
    if (frozen : Int) + 1 ≤ i' ∧ jsAt data i' = some "" then loop1Aux data frozen fuel i'
    else i'

/-- The first scan, started with enough fuel for its `i` decrements. -/
def loop1 (data : List String) (frozen : Nat) (i : Int) : Int :=
  loop1Aux data frozen (i.toNat + 1) i

/-- Second scan: `do{ i++; }while(i<max && !isRangeEmpty(getRow(i+1), icb))`. -/
def loop2Aux (s : Sheet) (icb : Bool) (mx : Int) : Nat → Int → Int
  | 0, i => i + 1
  | fuel + 1, i =>
    let i' := i + 1
    if i' < mx ∧ isRangeEmpty (rowAt s (i' + 1)) icb = false then loop2Aux s icb mx fuel i'
    else i'

/-- The second scan, started with enough fuel for its climb to `mx`. -/
def loop2 (s : Sheet) (icb : Bool) (mx i : Int) : Int :=
  loop2Aux s icb mx ((mx - i).toNat + 1) i

/-- `getFirstEmptyRow(sheet, index, ignoreCheckboxes)`.  With the flag the
source takes the append path (`getLastRow()+1` against `getMaxRows()`);
without it, it runs the two scans against `getLastRow()`.  The trailing
`if(row > max)` grows the grid by one, otherwise a blank row is inserted
before `row`.  A zero-row read (`getRange(1, index, 0, 1)`) or an insert
at a row below 1 raises in the host, modelled as `.error .outOfBounds`. -/
def getFirstEmptyRow (s : Sheet) (index : Nat) (ignoreCheckboxes : Bool) :
    Except Err (Nat × Sheet) :=
  if ignoreCheckboxes then
    let row := getLastRow s + 1
    let mx := getMaxRows s
    if row > mx then .ok (mx + 1, insertRowAfter s mx)
    else .ok (row, insertRowBefore s row)
  else
    let mx := getLastRow s
    if mx = 0 then .error .outOfBounds
    else
      let data := colValues s index mx
      let i1 := loop1 data s.frozenRows (mx : Int)
      let i2 := loop2 s ignoreCheckboxes (mx : Int) (i1 - 1)
      let row : Int := i2 + 1
      if row > (mx : Int) then .ok (mx + 1, insertRowAfter s mx)
      else if 1 ≤ row then .ok (row.toNat, insertRowBefore s row.toNat)
      else .error .outOfBounds

/-- Row index of a placement result (0 on a host error). -/
def rowOf : Except Err (Nat × Sheet) → Nat
  | .ok p => p.1
  | .error _ => 0

/-! ## `getRangesInUse` (source lines 386-403) -/

/-- `getRangesInUse(sheet, excludeFrozen)`: the `1 × getLastColumn()` row
ranges between the frozen rows and `getLastRow()` that contain at least one
value; a range is identified by its row index. -/
def getRangesInUse (s : Sheet) (excludeFrozen : Bool) : List Nat :=
  let frozen := if excludeFrozen then s.frozenRows else 0
  let rowsAmt := getLastRow s - frozen
  let maxCols := getLastColumn s
  (List.range rowsAmt).filterMap (fun i =>
    if (rowValuesN s (i + 1 + frozen) maxCols).any (fun v => v ≠ "") then
      some (i + 1 + frozen)
    else none)

/-! ## The append engine (`copyToFirstEmptyRow`, `moveToFirstEmptyRow`,
`sweep`; source lines 35-53, 80-106, 230-241)

State: the range's source sheet, the destination sheet, the script lock
and an event log recording which collaborator calls actually ran.  The
`range` argument of the source is a `1 × numCols` row range pinned at
row `srcRow`, column 1 of the source sheet (the form-submission shape the
library is written for); the destination is a different sheet, as in the
documented usage.  The duplicate callback of the examples only changes
formatting, so it is modelled as an event plus a possible failure. -/

/-- Events: one per collaborator call the engine performs. -/
inductive Ev where
  | lockAcquire
  | lockRelease
  | dupCheck
  | place (r : Nat)
  | copyRow (r : Nat)
  | digestWrite
  | callback
  | deleteSrc (r : Nat)
deriving Repr, DecidableEq

/-- Error-injection switches: which collaborator call raises. -/
structure FailSpec where
  failDup : Bool
  failPlace : Bool
  failCopy : Bool
  failDigest : Bool
  failCallback : Bool
  failDelete : Bool
deriving Repr, DecidableEq

/-- No injected failures: the normal run. -/
def noFail : FailSpec := ⟨false, false, false, false, false, false⟩

/-- The mutable world the engine acts on. -/
structure EngineState where
  src : Sheet
  dst : Sheet
  locked : Bool
  log : List Ev
deriving Repr, DecidableEq

/-- The `isDuplicate(range, sheet, digest)` call inside the engine:
reads the source row and the destination's digest column. -/
def isDuplicateM (fs : FailSpec) (hash : String → String) (srcRow numCols : Nat)
    (useDigest : Bool) (skip : Nat) (st : EngineState) : Except Err Bool × EngineState :=
  if fs.failDup then (.error (Err.injected .dup), st)
  else
    (isDuplicate hash (rowValuesN st.src srcRow numCols) st.dst useDigest none skip,
     { st with log := st.log ++ [Ev.dupCheck] })

/-- `lock.waitLock(300000)` after a successful wait (the timeout case is
handled at the call sites). -/
def acquireLock (useLock : Bool) (st : EngineState) : EngineState :=
  if useLock then { st with locked := true, log := st.log ++ [Ev.lockAcquire] } else st

/-- `lock.releaseLock()` — only ever reached on the success path. -/
def releaseLock (useLock : Bool) (st : EngineState) : EngineState :=
  if useLock then { st with locked := false, log := st.log ++ [Ev.lockRelease] } else st

/-- `duplicateCallback !== null && isDuplicate(range, sheet, digest)` —
the short-circuit `&&`: with a null callback `isDuplicate` is not called. -/
def dupCheckStep (fs : FailSpec) (hash : String → String) (srcRow numCols : Nat)
    (digest hasCallback : Bool) (st : EngineState) : Except Err Bool × EngineState :=
  if hasCallback then isDuplicateM fs hash srcRow numCols digest 1 st
  else (.ok false, st)

/-- `getFirstEmptyRow(sheet, 1, ignoreCheckboxes)` against the destination. -/
def placeStep (fs : FailSpec) (icb : Bool) (st : EngineState) :
    Except Err Nat × EngineState :=
  if fs.failPlace then (.error (Err.injected .place), st)
  else match getFirstEmptyRow st.dst 1 icb with
       | .error e => (.error e, st)
       | .ok (r, dst') => (.ok r, { st with dst := dst', log := st.log ++ [Ev.place r] })

/-- `range.copyTo(destination, {contentsOnly:true})`. -/
def copyStep (fs : FailSpec) (srcRow numCols row : Nat) (st : EngineState) :
    Except Err Unit × EngineState :=
  if fs.failCopy then (.error (Err.injected .copy), st)
  else (.ok (),
        { st with
          dst := updateRowValues st.dst row (rowValuesN st.src srcRow numCols),
          log := st.log ++ [Ev.copyRow row] })

/-- `if (digest) destination = addDigest(destination)` — the digest is
computed over the destination's just-copied values (skip 1) and written in
the cell after the range. -/
def digestStep (fs : FailSpec) (hash : String → String) (numCols row : Nat)
    (digest : Bool) (st : EngineState) : Except Err Unit × EngineState :=
  if digest then
    if fs.failDigest then (.error (Err.injected .digestW), st)
    else (.ok (),
          { st with
            dst := setCellValue st.dst row (numCols + 1)
                     (getDigest hash (rowValuesN st.dst row numCols) 1),
            log := st.log ++ [Ev.digestWrite] })
  else (.ok (), st)

/-- `if (duplicate) duplicateCallback(destination)` — formatting-only user
code, which may raise. -/
def callbackStep (fs : FailSpec) (duplicate : Bool) (st : EngineState) :
    Except Err Unit × EngineState :=
  if duplicate then
    if fs.failCallback then (.error (Err.injected .callback), st)
    else (.ok (), { st with log := st.log ++ [Ev.callback] })
  else (.ok (), st)

/-- `range.getSheet().deleteRow(range.getRow())`. -/
def deleteStep (fs : FailSpec) (srcRow : Nat) (st : EngineState) :
    Except Err Unit × EngineState :=
  if fs.failDelete then (.error (Err.injected .delete), st)
  else (.ok (),
        { st with
          src := deleteRowSheet st.src srcRow,
          log := st.log ++ [Ev.deleteSrc srcRow] })

/-- `copyToFirstEmptyRow(range, sheet, digest, duplicateCallback, useLock,
ignoreCheckboxes)`.  Statement order as in the source: lock wait; the
short-circuit duplicate check; the placement; the copy; `addDigest`; the
duplicate callback; the lock release — reached only when no earlier step
raised. -/
def copyToFirstEmptyRowM (fs : FailSpec) (hash : String → String)
    (srcRow numCols : Nat) (digest hasCallback useLock ignoreCheckboxes : Bool)
    (st : EngineState) : Except Err Nat × EngineState :=
  if useLock && st.locked then (.error .lockTimeout, st) else
  match dupCheckStep fs hash srcRow numCols digest hasCallback (acquireLock useLock st) with
  | (.error e, st) => (.error e, st)
  | (.ok duplicate, st) =>
    match placeStep fs ignoreCheckboxes st with
    | (.error e, st) => (.error e, st)
    | (.ok row, st) =>
      match copyStep fs srcRow numCols row st with
      | (.error e, st) => (.error e, st)
      | (.ok _, st) =>
        match digestStep fs hash numCols row digest st with
        | (.error e, st) => (.error e, st)
        | (.ok _, st) =>
          match callbackStep fs duplicate st with
          | (.error e, st) => (.error e, st)
          | (.ok _, st) => (.ok row, releaseLock useLock st)

/-- `moveToFirstEmptyRow(...)`: lock wait; `copyToFirstEmptyRow` with
`useLock=false`; `range.getSheet().deleteRow(range.getRow())`; lock
release; return the destination. -/
def moveToFirstEmptyRowM (fs : FailSpec) (hash : String → String)
    (srcRow numCols : Nat) (digest hasCallback useLock ignoreCheckboxes : Bool)
    (st : EngineState) : Except Err Nat × EngineState :=
  if useLock && st.locked then (.error .lockTimeout, st) else
  match copyToFirstEmptyRowM fs hash srcRow numCols digest hasCallback false ignoreCheckboxes
          (acquireLock useLock st) with
  | (.error e, st) => (.error e, st)
  | (.ok dest, st) =>
    match deleteStep fs srcRow st with
    | (.error e, st) => (.error e, st)
    | (.ok _, st) => (.ok dest, releaseLock useLock st)

/-- The move loop of `sweep` with `deleteFromSource=true`:
`getRangesInUse(sheetFrom).reverse().forEach(range =>
moveToFirstEmptyRow(range, sheetTo))`; an exception aborts the iteration. -/
def sweepMoveLoop (fs : FailSpec) (hash : String → String) (cols0 : Nat) :
    List Nat → EngineState → Except Err Unit × EngineState
  | [], st => (.ok (), st)
  | r :: rs, st =>
    match moveToFirstEmptyRowM fs hash r cols0 false false true true st with
    | (.ok _, st) => sweepMoveLoop fs hash cols0 rs st
    | (.error e, st) => (.error e, st)

/-- The copy loop of `sweep` with `deleteFromSource=false`. -/
def sweepCopyLoop (fs : FailSpec) (hash : String → String) (cols0 : Nat) :
    List Nat → EngineState → Except Err Unit × EngineState
  | [], st => (.ok (), st)
  | r :: rs, st =>
    match copyToFirstEmptyRowM fs hash r cols0 false false true true st with
    | (.ok _, st) => sweepCopyLoop fs hash cols0 rs st
    | (.error e, st) => (.error e, st)

/-- `sweep(sheetFrom, sheetTo, deleteFromSource)` (source lines 230-241).
The ranges (row index, `1 × getLastColumn()` wide) are collected once up
front; with deletion they are processed in reverse order. -/
def sweep (fs : FailSpec) (hash : String → String) (deleteFromSource : Bool)
    (st : EngineState) : Except Err Unit × EngineState :=
  let ranges := getRangesInUse st.src true
  let cols0 := getLastColumn st.src
  if deleteFromSource then sweepMoveLoop fs hash cols0 ranges.reverse st
  else sweepCopyLoop fs hash cols0 ranges st

/-- A sheet contains a row whose leading values are `vs`. -/
def containsRowValues (s : Sheet) (vs : List String) : Prop :=
  ∃ i, i < s.rows.length ∧ rowValsOf (s.rows.getD i []) vs.length = vs

instance (s : Sheet) (vs : List String) : Decidable (containsRowValues s vs) := by
  unfold containsRowValues; infer_instance

/-- `true` iff the run did not raise. -/
def exceptIsOk : Except Err Nat → Bool
  | .ok _ => true
  | .error _ => false

/-! ## Specification-side definition for the scan of `getFirstEmptyRow`

Modelled from the spec's words for the forward scan ("scans forward …
until it finds a row that is blank by the same test"), parametrised by the
row the code actually starts from: the least `r` with `a ≤ r ≤ mx` whose
row is blank, and `mx + 1` when there is none.  Used to state what the
scan loop provably returns. -/
def firstBlankAux (s : Sheet) (icb : Bool) (mx : Nat) : Nat → Nat → Nat
  | 0, a => a
  | fuel + 1, a =>
    if a > mx then mx + 1
    else if isRangeEmpty (rowAtN s a) icb then a
    else firstBlankAux s icb mx fuel (a + 1)

/-- Least blank row in `[a, mx]`, else `mx + 1`. -/
def firstBlankFrom (s : Sheet) (icb : Bool) (mx a : Nat) : Nat :=
  firstBlankAux s icb mx (mx + 2 - a) a

/-! ## Concrete fixtures for counterexamples and witnesses -/

/-- A validation-free cell row from plain values. -/
def mkRow (l : List String) : List Cell := l.map (fun v => ⟨v, false⟩)

/-- A placeholder for the host hash pipeline in closed evaluations. -/
def hashId : String → String := fun s => s

/-- The spec's gap-reuse example: 1 frozen row, data in rows 2-5, row 3
entirely blank. -/
def gapSheet : Sheet :=
  ⟨1, [mkRow ["h", "h2"], mkRow ["a", "x"], mkRow ["", ""], mkRow ["c", "y"], mkRow ["d", "z"]]⟩

/-- A sheet whose only content is a single checkbox-validated cell. -/
def cbSheet : Sheet := ⟨0, [[⟨"FALSE", true⟩], [], []]⟩

/-- A contentless 3-row sheet. -/
def emptySheet : Sheet := ⟨0, [[], [], []]⟩

/-- Source fixture: frozen header, data rows 2 and 4, blank row 3. -/
def exSrc : Sheet := ⟨1, [mkRow ["H"], mkRow ["a", "b"], mkRow ["", ""], mkRow ["c", "d"], []]⟩

/-- Destination fixture: one data row, two spare rows. -/
def exDst : Sheet := ⟨0, [mkRow ["z", "z2"], [], []]⟩

/-- Engine fixture: fresh lock, empty log. -/
def exSt : EngineState := ⟨exSrc, exDst, false, []⟩

/-- Only the `copyTo` collaborator call raises. -/
def fsCopyFail : FailSpec := { noFail with failCopy := true }

/-- No value of a row contains the join delimiter ",". -/
def commaFree (s : String) : Prop := ',' ∉ s.data

instance (s : String) : Decidable (commaFree s) := by
  unfold commaFree; infer_instance

/-- What one append-move leaves in the destination: a row with the given
values materialises right after the last content row (the reserved blank
row of the placement, filled by the copy). -/
def appendValsSheet (s : Sheet) (vs : List String) : Sheet :=
  { s with
    rows := s.rows.take (getLastRow s) ++ [writeVals [] vs] ++ s.rows.drop (getLastRow s) }

/-- A value row with at least one non-empty value. -/
def hasValue (vs : List String) : Bool := vs.any (fun v => v ≠ "")

/-! # Basic facts about the host model -/

theorem lastIdxWhere_le_length (p : α → Bool) :
    ∀ l : List α, lastIdxWhere p l ≤ l.length := by
  intro l
  induction l with
  | nil => simp [lastIdxWhere]
  | cons a as ih =>
    simp only [lastIdxWhere, List.length_cons]
    split <;> [split; skip] <;> omega

theorem getLastRow_le_maxRows (s : Sheet) : getLastRow s ≤ getMaxRows s :=
  lastIdxWhere_le_length rowHasContent s.rows

/-! # C4 — digest determinism and skip independence -/

/-- C4: `getDigest` is a pure function of the post-skip values: two value
rows that agree from index `skip` on yield the identical digest string (in
particular repeated calls agree, and the leading skipped cells — e.g. the
timestamp — never influence the result). -/
theorem c4_digest_skip_independent (hash : String → String) (u v : List String) (k : Nat)
    (h : u.drop k = v.drop k) : getDigest hash u k = getDigest hash v k := by
  unfold getDigest
  rw [h]

/-- Witness for C4 at concrete rows differing only in the timestamp. -/
theorem c4_digest_skip_independent_witness :
    (["t1", "alice", "42"].drop 1 = ["t2", "alice", "42"].drop 1) ∧
    getDigest hashId ["t1", "alice", "42"] 1 = getDigest hashId ["t2", "alice", "42"] 1 :=
  ⟨by decide, c4_digest_skip_independent hashId ["t1", "alice", "42"] ["t2", "alice", "42"] 1
    (by decide)⟩

/-! # C6 — raw (non-digest) duplicate mode throws -/

theorem isDuplicate_raw_throws (hash : String → String) (vals : List String) (sheet : Sheet)
    (skip : Nat) (h : 1 ≤ getLastRow sheet) :
    isDuplicate hash vals sheet false none skip = .error .digestRequired := by
  unfold isDuplicate
  simp only [Option.getD_none]
  rw [if_neg (by omega)]
  simp

/-- C6: with `useDigest = false` and a sheet whose last data row is at
least 1, `isDuplicate` raises (the source throws
"Digest required for duplication check") instead of silently returning. -/
theorem c6_rawMode_throws (hash : String → String) (vals : List String) (sheet : Sheet)
    (skip : Nat) (h : 1 ≤ getLastRow sheet) :
    isDuplicate hash vals sheet false none skip = .error .digestRequired :=
  isDuplicate_raw_throws hash vals sheet skip h

/-- Witness for C6 on a sheet with one data row. -/
theorem c6_rawMode_throws_witness :
    1 ≤ getLastRow exDst ∧
    isDuplicate hashId ["a", "b"] exDst false none 1 = .error .digestRequired :=
  ⟨by decide, c6_rawMode_throws hashId ["a", "b"] exDst 1 (by decide)⟩

/-! # C3 — the pre-hash encoding is NOT unambiguous

`values.join()` separates with ","; a value containing "," collides with
its split-up variant, so the byte sequences fed to the hash coincide for
distinct post-skip rows and every hash maps them to the same digest. -/

/-- C3 counterexample: the rows `["t", "a,b"]` and `["t", "a", "b"]`
differ after dropping 1 leading value, yet the joined strings — and hence
the digests, for the host hash pipeline — coincide. -/
theorem c3_join_collision :
    (["t", "a,b"].drop 1 ≠ ["t", "a", "b"].drop 1) ∧
    joinValues (["t", "a,b"].drop 1) = joinValues (["t", "a", "b"].drop 1) ∧
    getDigest hashId ["t", "a,b"] 1 = getDigest hashId ["t", "a", "b"] 1 := by
  refine ⟨by decide, by decide, by decide⟩

theorem append_comma_cancel : ∀ (a b x y : List Char), ',' ∉ a → ',' ∉ b →
    a ++ ',' :: x = b ++ ',' :: y → a = b ∧ x = y := by
  intro a
  induction a with
  | nil =>
    intro b x y _ hb h
    cases b with
    | nil => simpa using h
    | cons d bs =>
      simp only [List.nil_append, List.cons_append, List.cons.injEq] at h
      exact absurd (show ',' ∈ d :: bs by rw [h.1]; exact List.mem_cons_self d bs) hb
  | cons c as ih =>
    intro b x y ha hb h
    cases b with
    | nil =>
      simp only [List.nil_append, List.cons_append, List.cons.injEq] at h
      exact absurd (show ',' ∈ c :: as by rw [← h.1]; exact List.mem_cons_self c as) ha
    | cons d bs =>
      simp only [List.cons_append, List.cons.injEq] at h
      obtain ⟨rfl, h2⟩ := h
      have hr := ih bs x y (fun hm => ha (List.mem_cons_of_mem _ hm))
        (fun hm => hb (List.mem_cons_of_mem _ hm)) h2
      exact ⟨by rw [hr.1], hr.2⟩

theorem string_comma_cancel (a b x y : String) (ha : commaFree a) (hb : commaFree b)
    (h : a ++ "," ++ x = b ++ "," ++ y) : a = b ∧ x = y := by
  have hd : a.data ++ ',' :: x.data = b.data ++ ',' :: y.data := by
    have := congrArg String.data h
    simpa [String.data_append] using this
  have hr := append_comma_cancel a.data b.data x.data y.data ha hb hd
  exact ⟨String.ext hr.1, String.ext hr.2⟩

/-- On non-empty lists of comma-free values, `values.join()` is injective. -/
theorem joinValues_inj : ∀ (u v : List String), u ≠ [] → v ≠ [] →
    (∀ s ∈ u, commaFree s) → (∀ s ∈ v, commaFree s) →
    joinValues u = joinValues v → u = v := by
  intro u
  induction u with
  | nil => intro v hu; exact absurd rfl hu
  | cons a as ih =>
    intro v _ hv hcu hcv h
    cases v with
    | nil => exact absurd rfl hv
    | cons b bs =>
      cases as with
      | nil =>
        cases bs with
        | nil => simpa [joinValues] using h
        | cons b2 bs' =>
          exfalso
          have hd := congrArg String.data h
          simp only [joinValues, String.data_append] at hd
          exact hcu a (List.mem_cons_self _ _) (by rw [hd]; simp)
      | cons a2 as' =>
        cases bs with
        | nil =>
          exfalso
          have hd := congrArg String.data h
          simp only [joinValues, String.data_append] at hd
          exact hcv b (List.mem_cons_self _ _) (by rw [← hd]; simp)
        | cons b2 bs' =>
          simp only [joinValues] at h
          have hr := string_comma_cancel a b _ _ (hcu a (List.mem_cons_self _ _))
            (hcv b (List.mem_cons_self _ _)) h
          have := ih (b2 :: bs') (by simp) (by simp)
            (fun s hs => hcu s (List.mem_cons_of_mem _ hs))
            (fun s hs => hcv s (List.mem_cons_of_mem _ hs)) hr.2
          rw [hr.1, this]

/-- C3 amended: the encoding is unambiguous only on the delimiter-free
fragment — for two rows whose post-skip values are non-empty sequences of
comma-free strings, distinct post-skip sequences give distinct joined
strings (the exact byte sequence `getDigest` feeds to the host hash). -/
theorem c3_amended_commaFree_inj (hash : String → String) (u v : List String) (k : Nat)
    (hu : ∀ s ∈ u.drop k, commaFree s) (hv : ∀ s ∈ v.drop k, commaFree s)
    (hu0 : u.drop k ≠ []) (hv0 : v.drop k ≠ []) (hne : u.drop k ≠ v.drop k) :
    joinValues (u.drop k) ≠ joinValues (v.drop k) ∧
    getDigest hash u k = hash (joinValues (u.drop k)) :=
  ⟨fun h => hne (joinValues_inj (u.drop k) (v.drop k) hu0 hv0 hu hv h), rfl⟩

/-- Witness for the amended C3 at concrete comma-free rows. -/
theorem c3_amended_commaFree_inj_witness :
    joinValues (["t", "alice", "42"].drop 1) ≠ joinValues (["t", "alice", "43"].drop 1) ∧
    getDigest hashId ["t", "alice", "42"] 1 = hashId (joinValues (["t", "alice", "42"].drop 1)) :=
  c3_amended_commaFree_inj hashId ["t", "alice", "42"] ["t", "alice", "43"] 1
    (by decide) (by decide) (by decide) (by decide) (by decide)

/-! # C7 — the append placement path -/

/-- C7: with `ignoreCheckboxes` set, `getFirstEmptyRow` returns
`getLastRow() + 1` and reserves that row by inserting a blank row at that
position; the grid always grows by one — in particular, when
`getLastRow() + 1` exceeds `getMaxRows()` the host appends a fresh row at
the end instead of failing (the equation below covers both branches of
the trailing `if (row > max)`). -/
theorem getFirstEmptyRow_append_eq (s : Sheet) :
    getFirstEmptyRow s 1 true =
      .ok (getLastRow s + 1,
           { s with rows := s.rows.take (getLastRow s) ++ [[]] ++ s.rows.drop (getLastRow s) }) := by
  have hle : getLastRow s ≤ s.rows.length := getLastRow_le_maxRows s
  unfold getFirstEmptyRow
  simp only [if_true]
  by_cases h : getLastRow s + 1 > getMaxRows s
  · rw [if_pos h]
    have hEq : getLastRow s = s.rows.length := by
      unfold getMaxRows at h; omega
    unfold insertRowAfter getMaxRows
    simp [hEq]
  · rw [if_neg h]
    unfold insertRowBefore
    simp

theorem c7_append_path (s : Sheet) :
    getFirstEmptyRow s 1 true =
      .ok (getLastRow s + 1,
           { s with rows := s.rows.take (getLastRow s) ++ [[]] ++ s.rows.drop (getLastRow s) }) ∧
    (s.rows.take (getLastRow s) ++ [[]] ++ s.rows.drop (getLastRow s)).length
      = getMaxRows s + 1 := by
  have hle : getLastRow s ≤ s.rows.length := getLastRow_le_maxRows s
  refine ⟨getFirstEmptyRow_append_eq s, ?_⟩
  unfold getMaxRows
  simp only [List.length_append, List.length_take, List.length_drop, List.length_singleton]
  omega

/-! # C8 — the checkbox-aware blank test is bypassed by placement

`isRangeEmpty(_, true)` does treat a checkbox-only row as blank, exactly
as documented; but with `ignoreCheckboxes = true`, `getFirstEmptyRow`
takes the append branch, which never consults any blank test:
`getLastRow()` counts the checkbox value as content, so a checkbox-only
row is skipped (placement lands after it at row 2) where a truly empty
sheet would be targeted at row 1.  The flag's branch is inverted with
respect to the jsdoc "Whether to ignore checkbox cells when determining if
row is empty". -/

/-- C8: evaluation at the failing input — the blank test calls the
checkbox-only row blank, yet the `ignoreCheckboxes = true` placement does
not treat it like the genuinely empty row. -/
theorem c8_checkbox_divergence :
    isRangeEmpty [⟨"FALSE", true⟩] true = true ∧
    rowOf (getFirstEmptyRow cbSheet 1 true) = 2 ∧
    rowOf (getFirstEmptyRow emptySheet 1 true) = 1 := by
  decide

/-! # C2 — the gap scan does not reuse interior gaps -/

/-- C2 counterexample: on the spec's own example (frozen rows = 1, data in
rows 2-5, row 3 entirely blank) the scanning branch returns row 6, not
row 3. -/
theorem c2_gap_not_reused :
    rowOf (getFirstEmptyRow gapSheet 1 false) = 6 ∧ (6 : Nat) ≠ 3 := by
  decide

/-! ## Characterising the two scans of `getFirstEmptyRow` -/

theorem colValues_get (s : Sheet) (c mx j : Nat) (h : j < mx) :
    (colValues s c mx).get? j = some (cellValue s (j + 1) c) := by
  unfold colValues
  rw [List.get?_eq_getElem?, List.getElem?_map, List.getElem?_range h]
  rfl

/-- The backward scan, started at the last data row `mx` where row `L` is
the last row with a value in the scanned column, stops at `L - 1`. -/
theorem loop1Aux_run (s : Sheet) (index L mx : Nat)
    (hL1 : s.frozenRows + 1 ≤ L) (hL2 : L ≤ mx)
    (hval : cellValue s L index ≠ "")
    (habove : ∀ j, L < j → j ≤ mx → cellValue s j index = "") :
    ∀ (fuel k : Nat), k < fuel → L + k ≤ mx →
      loop1Aux (colValues s index mx) s.frozenRows fuel ((L : Int) + k) = (L : Int) - 1 := by
  intro fuel
  induction fuel with
  | zero => intro k hk; omega
  | succ fuel ih =>
    intro k hk hkm
    cases k with
    | zero =>
      show loop1Aux _ _ _ _ = _
      unfold loop1Aux
      rw [if_neg]
      · push_cast; ring
      · intro hcond
        obtain ⟨-, h2⟩ := hcond
        unfold jsAt at h2
        rw [if_neg (by push_cast; omega)] at h2
        have ht : ((L : Int) + (0 : Nat) - 1).toNat = L - 1 := by push_cast; omega
        rw [ht, colValues_get s index mx _ (by omega)] at h2
        have hL : L - 1 + 1 = L := by omega
        rw [hL] at h2
        exact hval (Option.some.inj h2)
    | succ k =>
      show loop1Aux _ _ _ _ = _
      unfold loop1Aux
      rw [if_pos]
      · have harg : (L : Int) + ((k + 1 : Nat) : Int) - 1 = (L : Int) + (k : Nat) := by
          push_cast; ring
        rw [harg]
        exact ih k (by omega) (by omega)
      · constructor
        · push_cast; omega
        · unfold jsAt
          rw [if_neg (by push_cast; omega)]
          have ht : ((L : Int) + ((k + 1 : Nat) : Int) - 1).toNat = L + k := by push_cast; omega
          rw [ht, colValues_get s index mx _ (by omega)]
          rw [habove (L + k + 1) (by omega) (by omega)]

theorem rowAt_coe (s : Sheet) (a : Nat) (h : 1 ≤ a) : rowAt s (a : Int) = rowAtN s a := by
  unfold rowAt
  rw [if_pos (by omega), Int.toNat_ofNat]

theorem firstBlankFrom_unfold (s : Sheet) (icb : Bool) (mx a : Nat) (ha : a ≤ mx + 1) :
    firstBlankFrom s icb mx a =
      if a > mx then mx + 1
      else if isRangeEmpty (rowAtN s a) icb then a
      else firstBlankFrom s icb mx (a + 1) := by
  unfold firstBlankFrom
  rw [show mx + 2 - a = (mx + 1 - a) + 1 from by omega,
      show mx + 2 - (a + 1) = mx + 1 - a from by omega]
  rfl

theorem firstBlankFrom_ge (s : Sheet) (icb : Bool) (mx : Nat) :
    ∀ (d a : Nat), mx + 1 - a ≤ d → a ≤ mx + 1 → a ≤ firstBlankFrom s icb mx a := by
  intro d
  induction d with
  | zero =>
    intro a h1 h2
    have : a = mx + 1 := by omega
    subst this
    rw [firstBlankFrom_unfold s icb mx _ (le_refl _), if_pos (by omega)]
  | succ d ih =>
    intro a h1 h2
    rw [firstBlankFrom_unfold s icb mx a h2]
    split
    · omega
    · split
      · exact le_refl a
      · rename_i hmx _
        exact le_trans (by omega) (ih (a + 1) (by omega) (by omega))

theorem firstBlankFrom_le (s : Sheet) (icb : Bool) (mx : Nat) :
    ∀ (d a : Nat), mx + 1 - a ≤ d → a ≤ mx + 1 → firstBlankFrom s icb mx a ≤ mx + 1 := by
  intro d
  induction d with
  | zero =>
    intro a h1 h2
    have : a = mx + 1 := by omega
    subst this
    rw [firstBlankFrom_unfold s icb mx _ (le_refl _), if_pos (by omega)]
  | succ d ih =>
    intro a h1 h2
    rw [firstBlankFrom_unfold s icb mx a h2]
    split
    · omega
    · split
      · omega
      · rename_i hmx _
        exact ih (a + 1) (by omega) (by omega)

/-- The forward scan, entered (as in the source) two slots before the stop
index of the backward scan, computes the least blank row in `[a, mx]`
(`mx + 1` if none). -/
theorem loop2Aux_run (s : Sheet) (icb : Bool) (mx : Nat) :
    ∀ (fuel a : Nat), 1 ≤ a → a ≤ mx + 1 → mx + 1 - a < fuel →
      loop2Aux s icb (mx : Int) fuel ((a : Int) - 2) =
        (firstBlankFrom s icb mx a : Int) - 1 := by
  intro fuel
  induction fuel with
  | zero => intro a _ _ h; omega
  | succ fuel ih =>
    intro a ha1 ha2 hf
    show loop2Aux _ _ _ _ _ = _
    unfold loop2Aux
    dsimp only
    rw [show ((a : Int) - 2 + 1 + 1) = (a : Int) from by ring,
        show ((a : Int) - 2 + 1) = (a : Int) - 1 from by ring,
        rowAt_coe s a ha1]
    by_cases hcase : a ≤ mx
    · by_cases hblank : isRangeEmpty (rowAtN s a) icb = true
      · rw [if_neg (by rw [hblank]; rintro ⟨-, h2⟩; exact absurd h2 (by simp))]
        rw [firstBlankFrom_unfold s icb mx a ha2, if_neg (by omega), if_pos hblank]
      · rw [if_pos ⟨by omega, by simpa using hblank⟩]
        rw [show ((a : Int) - 1) = ((a + 1 : Nat) : Int) - 2 from by push_cast; ring]
        rw [ih (a + 1) (by omega) (by omega) (by omega)]
        rw [firstBlankFrom_unfold s icb mx a ha2, if_neg (by omega),
            if_neg (by simpa using hblank)]
    · have : a = mx + 1 := by omega
      subst this
      rw [if_neg (by rintro ⟨h1, -⟩; push_cast at h1; omega)]
      rw [firstBlankFrom_unfold s icb mx _ (le_refl _), if_pos (by omega)]

/-- C2 amended: in the scanning branch, `getFirstEmptyRow` returns the
first row *at or after* `L` — the last row carrying a value in the scanned
column — that is blank (or `getLastRow() + 1` when there is none), and
reserves it; since row `L` itself is not blank, the returned row is
strictly after `L`: interior gaps below `L` are never reused, and on the
spec's example the function returns row 6, not row 3. -/
theorem c2_amended_scan_returns_first_blank_after_last (s : Sheet) (index L : Nat)
    (hL1 : s.frozenRows + 1 ≤ L) (hL2 : L ≤ getLastRow s)
    (hval : cellValue s L index ≠ "")
    (habove : ∀ j, L < j → j ≤ getLastRow s → cellValue s j index = "") :
    (getFirstEmptyRow s index false =
      if firstBlankFrom s false (getLastRow s) L > getLastRow s then
        .ok (getLastRow s + 1, insertRowAfter s (getLastRow s))
      else
        .ok (firstBlankFrom s false (getLastRow s) L,
             insertRowBefore s (firstBlankFrom s false (getLastRow s) L))) ∧
    L < firstBlankFrom s false (getLastRow s) L := by
  have hblankL : isRangeEmpty (rowAtN s L) false = false := by
    unfold isRangeEmpty
    simp only [Bool.not_false, if_pos]
    rw [List.all_eq_false]
    refine ⟨(rowAtN s L).getD (index - 1) blankCell, ?_, by
      unfold cellValue at hval; simpa using hval⟩
    by_cases hc : index - 1 < (rowAtN s L).length
    · rw [List.getD_eq_getElem _ _ hc]
      exact List.getElem_mem hc
    · exfalso
      apply hval
      unfold cellValue
      rw [List.getD_eq_default _ _ (by omega)]
      rfl
  have hLless : L < firstBlankFrom s false (getLastRow s) L := by
    have h1 := firstBlankFrom_ge s false (getLastRow s) (getLastRow s + 1 - (L + 1)) (L + 1)
      (le_refl _) (by omega)
    rw [firstBlankFrom_unfold s false (getLastRow s) L (by omega), if_neg (by omega),
        if_neg (by simp [hblankL])]
    omega
  refine ⟨?_, hLless⟩
  have hfle : firstBlankFrom s false (getLastRow s) L ≤ getLastRow s + 1 :=
    firstBlankFrom_le s false (getLastRow s) (getLastRow s + 1 - L) L (le_refl _) (by omega)
  unfold getFirstEmptyRow
  rw [if_neg (by simp)]
  rw [if_neg (by omega)]
  have hloop1 : loop1 (colValues s index (getLastRow s)) s.frozenRows ((getLastRow s : Int)) =
      (L : Int) - 1 := by
    unfold loop1
    rw [Int.toNat_ofNat]
    have := loop1Aux_run s index L (getLastRow s) hL1 hL2 hval habove
      (getLastRow s + 1) (getLastRow s - L) (by omega) (by omega)
    rw [show (L : Int) + ((getLastRow s - L : Nat) : Int) = ((getLastRow s : Nat) : Int) from by
      omega] at this
    exact this
  have hloop2 : loop2 s false ((getLastRow s : Nat) : Int) ((L : Int) - 1 - 1) =
      (firstBlankFrom s false (getLastRow s) L : Int) - 1 := by
    unfold loop2
    rw [show ((L : Int) - 1 - 1) = ((L : Int) - 2) from by ring]
    have hfuel : (((getLastRow s : Nat) : Int) - ((L : Int) - 2)).toNat + 1 =
        getLastRow s - L + 3 := by omega
    rw [hfuel]
    exact loop2Aux_run s false (getLastRow s) (getLastRow s - L + 3) L (by omega) (by omega)
      (by omega)
  simp only [hloop1, hloop2]
  rw [show ((firstBlankFrom s false (getLastRow s) L : Int) - 1 + 1) =
        ((firstBlankFrom s false (getLastRow s) L : Nat) : Int) from by ring]
  simp only [gt_iff_lt, Nat.cast_lt, Nat.one_le_cast, Int.toNat_ofNat]
  by_cases hgt : getLastRow s < firstBlankFrom s false (getLastRow s) L
  · rw [if_pos hgt, if_pos hgt]
  · rw [if_neg hgt, if_neg hgt, if_pos (by omega)]

/-- Witness for the amended C2: on the spec's example sheet (`L = 5`) the
scan's result is `firstBlankFrom _ _ 5 5`, past the interior gap at row 3. -/
theorem c2_amended_witness :
    (getFirstEmptyRow gapSheet 1 false =
      if firstBlankFrom gapSheet false (getLastRow gapSheet) 5 > getLastRow gapSheet then
        .ok (getLastRow gapSheet + 1, insertRowAfter gapSheet (getLastRow gapSheet))
      else
        .ok (firstBlankFrom gapSheet false (getLastRow gapSheet) 5,
             insertRowBefore gapSheet (firstBlankFrom gapSheet false (getLastRow gapSheet) 5))) ∧
    5 < firstBlankFrom gapSheet false (getLastRow gapSheet) 5 :=
  c2_amended_scan_returns_first_blank_after_last gapSheet 1 5 (by decide) (by decide) (by decide)
    (by intro j h1 h2
        have h5 : getLastRow gapSheet = 5 := by decide
        omega)

/-! ## Step-level facts about the append engine -/

theorem acquireLock_locked (uL : Bool) (st : EngineState) :
    (acquireLock uL st).locked = (uL || st.locked) := by
  cases uL <;> simp [acquireLock]

theorem acquireLock_src (uL : Bool) (st : EngineState) :
    (acquireLock uL st).src = st.src := by
  unfold acquireLock; split <;> rfl

theorem acquireLock_dst (uL : Bool) (st : EngineState) :
    (acquireLock uL st).dst = st.dst := by
  unfold acquireLock; split <;> rfl

theorem acquireLock_log (uL : Bool) (st : EngineState) :
    (acquireLock uL st).log = st.log ++ (if uL then [Ev.lockAcquire] else []) := by
  cases uL <;> simp [acquireLock]

theorem releaseLock_locked (uL : Bool) (st : EngineState) :
    (releaseLock uL st).locked = (!uL && st.locked) := by
  cases uL <;> simp [releaseLock]

theorem releaseLock_src (uL : Bool) (st : EngineState) :
    (releaseLock uL st).src = st.src := by
  unfold releaseLock; split <;> rfl

theorem releaseLock_log (uL : Bool) (st : EngineState) :
    (releaseLock uL st).log = st.log ++ (if uL then [Ev.lockRelease] else []) := by
  cases uL <;> simp [releaseLock]

theorem dupCheckStep_locked (fs : FailSpec) (hash : String → String) (sr nc : Nat)
    (dg cb : Bool) (st : EngineState) :
    (dupCheckStep fs hash sr nc dg cb st).2.locked = st.locked := by
  unfold dupCheckStep isDuplicateM
  repeat' split
  all_goals rfl

theorem dupCheckStep_src (fs : FailSpec) (hash : String → String) (sr nc : Nat)
    (dg cb : Bool) (st : EngineState) :
    (dupCheckStep fs hash sr nc dg cb st).2.src = st.src := by
  unfold dupCheckStep isDuplicateM
  repeat' split
  all_goals rfl

theorem dupCheckStep_dst (fs : FailSpec) (hash : String → String) (sr nc : Nat)
    (dg cb : Bool) (st : EngineState) :
    (dupCheckStep fs hash sr nc dg cb st).2.dst = st.dst := by
  unfold dupCheckStep isDuplicateM
  repeat' split
  all_goals rfl

theorem dupCheckStep_log (fs : FailSpec) (hash : String → String) (sr nc : Nat)
    (dg cb : Bool) (st : EngineState) :
    (dupCheckStep fs hash sr nc dg cb st).2.log = st.log ∨
    (dupCheckStep fs hash sr nc dg cb st).2.log = st.log ++ [Ev.dupCheck] := by
  unfold dupCheckStep isDuplicateM
  repeat' split
  all_goals simp

theorem dupCheckStep_noCallback (fs : FailSpec) (hash : String → String) (sr nc : Nat)
    (dg : Bool) (st : EngineState) :
    dupCheckStep fs hash sr nc dg false st = (.ok false, st) := rfl

theorem placeStep_locked (fs : FailSpec) (icb : Bool) (st : EngineState) :
    (placeStep fs icb st).2.locked = st.locked := by
  unfold placeStep
  repeat' split
  all_goals rfl

theorem placeStep_src (fs : FailSpec) (icb : Bool) (st : EngineState) :
    (placeStep fs icb st).2.src = st.src := by
  unfold placeStep
  repeat' split
  all_goals rfl

theorem placeStep_log (fs : FailSpec) (icb : Bool) (st : EngineState) :
    (placeStep fs icb st).2.log = st.log ∨
    ∃ r, (placeStep fs icb st).2.log = st.log ++ [Ev.place r] := by
  unfold placeStep
  repeat' split
  · exact .inl rfl
  · exact .inl rfl
  · exact .inr ⟨_, rfl⟩

theorem copyStep_locked (fs : FailSpec) (sr nc row : Nat) (st : EngineState) :
    (copyStep fs sr nc row st).2.locked = st.locked := by
  unfold copyStep
  split <;> rfl

theorem digestStep_locked (fs : FailSpec) (hash : String → String) (nc row : Nat)
    (dg : Bool) (st : EngineState) :
    (digestStep fs hash nc row dg st).2.locked = st.locked := by
  unfold digestStep
  repeat' split
  all_goals rfl

theorem callbackStep_locked (fs : FailSpec) (dup : Bool) (st : EngineState) :
    (callbackStep fs dup st).2.locked = st.locked := by
  unfold callbackStep
  repeat' split
  all_goals rfl

theorem deleteStep_locked (fs : FailSpec) (sr : Nat) (st : EngineState) :
    (deleteStep fs sr st).2.locked = st.locked := by
  unfold deleteStep
  split <;> rfl

theorem copyStep_shape (fs : FailSpec) (sr nc row : Nat) (st : EngineState) :
    copyStep fs sr nc row st = (.error (Err.injected .copy), st) ∨
    copyStep fs sr nc row st =
      (.ok (), { st with dst := updateRowValues st.dst row (rowValuesN st.src sr nc),
                         log := st.log ++ [Ev.copyRow row] }) := by
  unfold copyStep
  split
  · exact .inl rfl
  · exact .inr rfl

theorem digestStep_shape (fs : FailSpec) (hash : String → String) (nc row : Nat)
    (dg : Bool) (st : EngineState) :
    (∃ e, digestStep fs hash nc row dg st = (.error e, st)) ∨
    digestStep fs hash nc row dg st = (.ok (), st) ∨
    ∃ d, digestStep fs hash nc row dg st =
      (.ok (), { st with dst := d, log := st.log ++ [Ev.digestWrite] }) := by
  unfold digestStep
  repeat' split
  · exact .inl ⟨_, rfl⟩
  · exact .inr (.inr ⟨_, rfl⟩)
  · exact .inr (.inl rfl)

theorem callbackStep_shape (fs : FailSpec) (dup : Bool) (st : EngineState) :
    (∃ e, callbackStep fs dup st = (.error e, st)) ∨
    callbackStep fs dup st = (.ok (), st) ∨
    callbackStep fs dup st = (.ok (), { st with log := st.log ++ [Ev.callback] }) := by
  unfold callbackStep
  repeat' split
  · exact .inl ⟨_, rfl⟩
  · exact .inr (.inr rfl)
  · exact .inr (.inl rfl)

theorem deleteStep_shape (fs : FailSpec) (sr : Nat) (st : EngineState) :
    deleteStep fs sr st = (.error (Err.injected .delete), st) ∨
    deleteStep fs sr st =
      (.ok (), { st with src := deleteRowSheet st.src sr,
                         log := st.log ++ [Ev.deleteSrc sr] }) := by
  unfold deleteStep
  split
  · exact .inl rfl
  · exact .inr rfl

theorem copyStep_src (fs : FailSpec) (sr nc row : Nat) (st : EngineState) :
    (copyStep fs sr nc row st).2.src = st.src := by
  unfold copyStep
  split <;> rfl

theorem digestStep_src (fs : FailSpec) (hash : String → String) (nc row : Nat)
    (dg : Bool) (st : EngineState) :
    (digestStep fs hash nc row dg st).2.src = st.src := by
  unfold digestStep
  repeat' split
  all_goals rfl

theorem callbackStep_src (fs : FailSpec) (dup : Bool) (st : EngineState) :
    (callbackStep fs dup st).2.src = st.src := by
  unfold callbackStep
  repeat' split
  all_goals rfl

theorem copyStep_ok (fs : FailSpec) (sr nc row : Nat) (st st' : EngineState) (u : Unit)
    (h : copyStep fs sr nc row st = (.ok u, st')) :
    st'.log = st.log ++ [Ev.copyRow row] := by
  unfold copyStep at h
  split at h
  · exact absurd (congrArg Prod.fst h) (by simp)
  · rw [(Prod.mk.injEq _ _ _ _).mp h |>.2.symm]

theorem digestStep_log (fs : FailSpec) (hash : String → String) (nc row : Nat)
    (dg : Bool) (st : EngineState) :
    ∃ l, (digestStep fs hash nc row dg st).2.log = st.log ++ l ∧ Ev.dupCheck ∉ l := by
  unfold digestStep
  repeat' split
  · exact ⟨[], by simp, by simp⟩
  · exact ⟨[Ev.digestWrite], by simp, by simp⟩
  · exact ⟨[], by simp, by simp⟩

theorem callbackStep_log (fs : FailSpec) (dup : Bool) (st : EngineState) :
    ∃ l, (callbackStep fs dup st).2.log = st.log ++ l ∧ Ev.dupCheck ∉ l := by
  unfold callbackStep
  repeat' split
  · exact ⟨[], by simp, by simp⟩
  · exact ⟨[Ev.callback], by simp, by simp⟩
  · exact ⟨[], by simp, by simp⟩

theorem placeStep_logNoDup (fs : FailSpec) (icb : Bool) (st : EngineState) :
    ∃ l, (placeStep fs icb st).2.log = st.log ++ l ∧ Ev.dupCheck ∉ l := by
  rcases placeStep_log fs icb st with h | ⟨r, h⟩
  · exact ⟨[], by simp [h], by simp⟩
  · exact ⟨[Ev.place r], by simp [h], by simp⟩

theorem copyStep_logNoDup (fs : FailSpec) (sr nc row : Nat) (st : EngineState) :
    ∃ l, (copyStep fs sr nc row st).2.log = st.log ++ l ∧ Ev.dupCheck ∉ l := by
  unfold copyStep
  split
  · exact ⟨[], by simp, by simp⟩
  · exact ⟨[Ev.copyRow row], by simp, by simp⟩

/-- The source sheet through a whole `copyToFirstEmptyRow` body: no inner
step of the copy touches the range's source sheet. -/
theorem copy_src (fs : FailSpec) (hash : String → String) (sr nc : Nat)
    (dg cb uL icb : Bool) (st : EngineState) :
    (copyToFirstEmptyRowM fs hash sr nc dg cb uL icb st).2.src = st.src := by
  unfold copyToFirstEmptyRowM
  split
  · rfl
  · rcases h1 : dupCheckStep fs hash sr nc dg cb (acquireLock uL st) with ⟨res1, st1⟩
    have hs1 : st1.src = st.src := by
      have := dupCheckStep_src fs hash sr nc dg cb (acquireLock uL st)
      rw [h1, acquireLock_src] at this
      exact this
    cases res1 with
    | error e => exact hs1
    | ok dup =>
      dsimp only
      rcases h2 : placeStep fs icb st1 with ⟨res2, st2⟩
      have hs2 : st2.src = st.src := by
        have := placeStep_src fs icb st1
        rw [h2] at this
        exact this.trans hs1
      cases res2 with
      | error e => exact hs2
      | ok row =>
        dsimp only
        rcases h3 : copyStep fs sr nc row st2 with ⟨res3, st3⟩
        have hs3 : st3.src = st.src := by
          have := copyStep_src fs sr nc row st2
          rw [h3] at this
          exact this.trans hs2
        cases res3 with
        | error e => exact hs3
        | ok u =>
          dsimp only
          rcases h4 : digestStep fs hash nc row dg st3 with ⟨res4, st4⟩
          have hs4 : st4.src = st.src := by
            have := digestStep_src fs hash nc row dg st3
            rw [h4] at this
            exact this.trans hs3
          cases res4 with
          | error e => exact hs4
          | ok u2 =>
            dsimp only
            rcases h5 : callbackStep fs dup st4 with ⟨res5, st5⟩
            have hs5 : st5.src = st.src := by
              have := callbackStep_src fs dup st4
              rw [h5] at this
              exact this.trans hs4
            cases res5 with
            | error e => exact hs5
            | ok u3 =>
              dsimp only
              rw [releaseLock_src]
              exact hs5

/-- A successful `copyToFirstEmptyRow` run logged its `copyTo` of the row
it returns. -/
theorem copy_ok_log (fs : FailSpec) (hash : String → String) (sr nc : Nat)
    (dg cb uL icb : Bool) (st : EngineState) (r : Nat)
    (h : (copyToFirstEmptyRowM fs hash sr nc dg cb uL icb st).1 = .ok r) :
    ∃ l₁ l₂, (copyToFirstEmptyRowM fs hash sr nc dg cb uL icb st).2.log =
      l₁ ++ Ev.copyRow r :: l₂ := by
  unfold copyToFirstEmptyRowM at h ⊢
  split at h
  · exact absurd h (by simp)
  · rename_i hlock
    rw [if_neg hlock]
    rcases h1 : dupCheckStep fs hash sr nc dg cb (acquireLock uL st) with ⟨res1, st1⟩
    rw [h1] at h
    cases res1 with
    | error e => exact absurd h (by simp)
    | ok dup =>
      dsimp only at h ⊢
      rcases h2 : placeStep fs icb st1 with ⟨res2, st2⟩
      rw [h2] at h
      cases res2 with
      | error e => exact absurd h (by simp)
      | ok row =>
        dsimp only at h ⊢
        rcases h3 : copyStep fs sr nc row st2 with ⟨res3, st3⟩
        rw [h3] at h
        have hlog3 : res3 = .ok () → st3.log = st2.log ++ [Ev.copyRow row] := by
          intro hr
          exact copyStep_ok fs sr nc row st2 st3 () (by rw [← hr]; exact h3)
        cases res3 with
        | error e => exact absurd h (by simp)
        | ok u =>
          have hlog3' := hlog3 rfl
          dsimp only at h ⊢
          rcases h4 : digestStep fs hash nc row dg st3 with ⟨res4, st4⟩
          rw [h4] at h
          have hl4 := digestStep_log fs hash nc row dg st3
          rw [h4] at hl4
          cases res4 with
          | error e => exact absurd h (by simp)
          | ok u2 =>
            dsimp only at h ⊢
            rcases h5 : callbackStep fs dup st4 with ⟨res5, st5⟩
            rw [h5] at h
            have hl5 := callbackStep_log fs dup st4
            rw [h5] at hl5
            cases res5 with
            | error e => exact absurd h (by simp)
            | ok u3 =>
              dsimp only at h ⊢
              have hrow : row = r := by simpa using h
              obtain ⟨l4, hl4e, -⟩ := hl4
              obtain ⟨l5, hl5e, -⟩ := hl5
              subst hrow
              refine ⟨st2.log, l4 ++ l5 ++ (if uL then [Ev.lockRelease] else []), ?_⟩
              rw [releaseLock_log, hl5e, hl4e, hlog3']
              simp

/-- The lock field through a whole `copyToFirstEmptyRow` body: every inner
step leaves it alone, so after the run it is down iff the run succeeded
(when the lock was taken) and untouched otherwise. -/
theorem copy_locked (fs : FailSpec) (hash : String → String) (sr nc : Nat)
    (dg cb uL icb : Bool) (st : EngineState) (h : (uL && st.locked) = false) :
    (copyToFirstEmptyRowM fs hash sr nc dg cb uL icb st).2.locked =
      (if exceptIsOk (copyToFirstEmptyRowM fs hash sr nc dg cb uL icb st).1 then
        (!uL && st.locked) else (uL || st.locked)) := by
  unfold copyToFirstEmptyRowM
  rw [if_neg (by simp [h])]
  rcases h1 : dupCheckStep fs hash sr nc dg cb (acquireLock uL st) with ⟨res1, st1⟩
  have hl1 : st1.locked = (uL || st.locked) := by
    have := dupCheckStep_locked fs hash sr nc dg cb (acquireLock uL st)
    rw [h1, acquireLock_locked] at this
    exact this
  cases res1 with
  | error e => simpa [exceptIsOk] using hl1
  | ok dup =>
    dsimp only
    rcases h2 : placeStep fs icb st1 with ⟨res2, st2⟩
    have hl2 : st2.locked = (uL || st.locked) := by
      have := placeStep_locked fs icb st1
      rw [h2] at this
      exact this.trans hl1
    cases res2 with
    | error e => simpa [exceptIsOk] using hl2
    | ok row =>
      dsimp only
      rcases h3 : copyStep fs sr nc row st2 with ⟨res3, st3⟩
      have hl3 : st3.locked = (uL || st.locked) := by
        have := copyStep_locked fs sr nc row st2
        rw [h3] at this
        exact this.trans hl2
      cases res3 with
      | error e => simpa [exceptIsOk] using hl3
      | ok u =>
        dsimp only
        rcases h4 : digestStep fs hash nc row dg st3 with ⟨res4, st4⟩
        have hl4 : st4.locked = (uL || st.locked) := by
          have := digestStep_locked fs hash nc row dg st3
          rw [h4] at this
          exact this.trans hl3
        cases res4 with
        | error e => simpa [exceptIsOk] using hl4
        | ok u2 =>
          dsimp only
          rcases h5 : callbackStep fs dup st4 with ⟨res5, st5⟩
          have hl5 : st5.locked = (uL || st.locked) := by
            have := callbackStep_locked fs dup st4
            rw [h5] at this
            exact this.trans hl4
          cases res5 with
          | error e => simpa [exceptIsOk] using hl5
          | ok u3 =>
            dsimp only
            simp only [exceptIsOk, releaseLock_locked, hl5]
            cases uL <;> simp

/-- C1 amended: with `useLock = true` (and the lock initially free, so the
wait succeeds), `copyToFirstEmptyRow` and `moveToFirstEmptyRow` release
the script lock exactly on the success path: a successful run ends with
the lock free, while a run in which any step after acquisition raised
propagates the error with the lock still held. -/
theorem c1_amended_lock_released_iff_ok (fs : FailSpec) (hash : String → String)
    (sr nc : Nat) (dg cb icb : Bool) (st : EngineState) (h : st.locked = false) :
    ((copyToFirstEmptyRowM fs hash sr nc dg cb true icb st).2.locked =
       !exceptIsOk (copyToFirstEmptyRowM fs hash sr nc dg cb true icb st).1) ∧
    ((moveToFirstEmptyRowM fs hash sr nc dg cb true icb st).2.locked =
       !exceptIsOk (moveToFirstEmptyRowM fs hash sr nc dg cb true icb st).1) := by
  constructor
  · rw [copy_locked fs hash sr nc dg cb true icb st (by simp [h])]
    cases hres : exceptIsOk (copyToFirstEmptyRowM fs hash sr nc dg cb true icb st).1 <;> simp
  · unfold moveToFirstEmptyRowM
    rw [if_neg (by simp [h])]
    rcases h1 : copyToFirstEmptyRowM fs hash sr nc dg cb false icb (acquireLock true st)
      with ⟨res1, st1⟩
    have hl1 : st1.locked = true := by
      have := copy_locked fs hash sr nc dg cb false icb (acquireLock true st) (by simp)
      rw [h1, acquireLock_locked] at this
      simpa using this
    cases res1 with
    | error e => simpa [exceptIsOk] using hl1
    | ok dest =>
      dsimp only
      rcases deleteStep_shape fs sr st1 with h2 | h2 <;> rw [h2]
      · simpa [exceptIsOk] using hl1
      · simp [exceptIsOk, releaseLock_locked]

/-- Witness for the amended C1: at the concrete failing-copy run the error
propagates with the lock held, and at the concrete clean run the lock ends
free. -/
theorem c1_amended_lock_released_iff_ok_witness :
    ((copyToFirstEmptyRowM fsCopyFail hashId 2 2 false false true true exSt).2.locked =
       !exceptIsOk (copyToFirstEmptyRowM fsCopyFail hashId 2 2 false false true true exSt).1) ∧
    ((moveToFirstEmptyRowM fsCopyFail hashId 2 2 false false true true exSt).2.locked =
       !exceptIsOk (moveToFirstEmptyRowM fsCopyFail hashId 2 2 false false true true exSt).1) :=
  c1_amended_lock_released_iff_ok fsCopyFail hashId 2 2 false false true exSt rfl

/-! # C5 — a move never deletes the source row before a confirmed copy -/

/-- C5: in `moveToFirstEmptyRow` the source row is deleted only after
`copyToFirstEmptyRow` returned successfully: on any error the source
sheet is exactly the initial one (the duplicate check, placement, copy,
digest write and duplicate callback all run inside the copy, before the
deletion), and on success the source lost exactly row `srcRow`, with the
`copyTo` event logged strictly before the deletion event. -/
theorem c5_move_at_most_once (fs : FailSpec) (hash : String → String) (sr nc : Nat)
    (dg cb uL icb : Bool) (st : EngineState) :
    (exceptIsOk (moveToFirstEmptyRowM fs hash sr nc dg cb uL icb st).1 = false →
       (moveToFirstEmptyRowM fs hash sr nc dg cb uL icb st).2.src = st.src) ∧
    (∀ r, (moveToFirstEmptyRowM fs hash sr nc dg cb uL icb st).1 = .ok r →
       (moveToFirstEmptyRowM fs hash sr nc dg cb uL icb st).2.src =
         deleteRowSheet st.src sr ∧
       ∃ l₁ l₂ l₃, (moveToFirstEmptyRowM fs hash sr nc dg cb uL icb st).2.log =
         l₁ ++ Ev.copyRow r :: l₂ ++ Ev.deleteSrc sr :: l₃) := by
  unfold moveToFirstEmptyRowM
  split
  · exact ⟨fun _ => rfl, fun r hr => absurd hr (by simp)⟩
  · rcases hc : copyToFirstEmptyRowM fs hash sr nc dg cb false icb (acquireLock uL st)
      with ⟨resC, stC⟩
    have hsrc : stC.src = st.src := by
      have := copy_src fs hash sr nc dg cb false icb (acquireLock uL st)
      rw [hc, acquireLock_src] at this
      exact this
    cases resC with
    | error e => exact ⟨fun _ => hsrc, fun r hr => absurd hr (by simp)⟩
    | ok dest =>
      dsimp only
      rcases deleteStep_shape fs sr stC with hd | hd <;> rw [hd] <;> dsimp only
      · exact ⟨fun _ => hsrc, fun r hr => absurd hr (by simp)⟩
      · constructor
        · intro hfalse
          exact absurd hfalse (by simp [exceptIsOk])
        · intro r hr
          have hdest : dest = r := by simpa using hr
          subst hdest
          constructor
          · rw [releaseLock_src]
            dsimp only
            rw [hsrc]
          · have hclog := copy_ok_log fs hash sr nc dg cb false icb (acquireLock uL st) dest
              (by rw [hc])
            rw [hc] at hclog
            obtain ⟨l₁, l₂, hlog⟩ := hclog
            refine ⟨l₁, l₂, if uL then [Ev.lockRelease] else [], ?_⟩
            rw [releaseLock_log]
            dsimp only
            rw [hlog]
            simp

/-- Witness for C5: at the failing-copy run the source sheet is untouched;
at the clean run the source lost exactly the moved row, with the copy
logged before the deletion. -/
theorem c5_move_at_most_once_witness :
    (moveToFirstEmptyRowM fsCopyFail hashId 2 2 false false true true exSt).2.src = exSt.src ∧
    (moveToFirstEmptyRowM noFail hashId 2 2 false false true true exSt).2.src =
      deleteRowSheet exSt.src 2 ∧
    ∃ l₁ l₂ l₃, (moveToFirstEmptyRowM noFail hashId 2 2 false false true true exSt).2.log =
      l₁ ++ Ev.copyRow 2 :: l₂ ++ Ev.deleteSrc 2 :: l₃ :=
  ⟨(c5_move_at_most_once fsCopyFail hashId 2 2 false false true true exSt).1 (by decide),
   ((c5_move_at_most_once noFail hashId 2 2 false false true true exSt).2 2 (by decide)).1,
   ((c5_move_at_most_once noFail hashId 2 2 false false true true exSt).2 2 (by decide)).2⟩

/-! # C10 — the duplicate check is gated on the callback -/

/-- C10: with a null `duplicateCallback` the short-circuit `&&` means
`isDuplicate` is never invoked — no run, whatever the flags or injected
failures, ever logs a duplicate-check event (the only reader of the digest
column) — while a non-null callback with `digest = false` on a destination
whose last row is at least 1 makes the call raise
"Digest required for duplication check" before the placement: the
destination sheet is returned exactly as it was. -/
theorem c10_callback_gating :
    (∀ (fs : FailSpec) (hash : String → String) (sr nc : Nat) (dg uL icb : Bool)
       (st : EngineState), st.log = [] →
       Ev.dupCheck ∉ (copyToFirstEmptyRowM fs hash sr nc dg false uL icb st).2.log) ∧
    (∀ (fs : FailSpec) (hash : String → String) (sr nc : Nat) (uL icb : Bool)
       (st : EngineState), fs.failDup = false → st.locked = false →
       1 ≤ getLastRow st.dst →
       (copyToFirstEmptyRowM fs hash sr nc false true uL icb st).1 =
         .error .digestRequired ∧
       (copyToFirstEmptyRowM fs hash sr nc false true uL icb st).2.dst = st.dst) := by
  constructor
  · intro fs hash sr nc dg uL icb st hlog
    unfold copyToFirstEmptyRowM
    split
    · simp [hlog]
    · rw [dupCheckStep_noCallback]
      dsimp only
      have hlog1 : (acquireLock uL st).log = [] ++ (if uL then [Ev.lockAcquire] else []) := by
        rw [acquireLock_log, hlog]
      rcases h2 : placeStep fs icb (acquireLock uL st) with ⟨res2, st2⟩
      have hl2 := placeStep_logNoDup fs icb (acquireLock uL st)
      rw [h2] at hl2
      obtain ⟨l2, hl2e, hl2n⟩ := hl2
      cases res2 with
      | error e =>
        rw [hl2e, hlog1]
        cases uL <;> simp_all
      | ok row =>
        dsimp only
        rcases h3 : copyStep fs sr nc row st2 with ⟨res3, st3⟩
        have hl3 := copyStep_logNoDup fs sr nc row st2
        rw [h3] at hl3
        obtain ⟨l3, hl3e, hl3n⟩ := hl3
        cases res3 with
        | error e =>
          rw [hl3e, hl2e, hlog1]
          cases uL <;> simp_all
        | ok u =>
          dsimp only
          rcases h4 : digestStep fs hash nc row dg st3 with ⟨res4, st4⟩
          have hl4 := digestStep_log fs hash nc row dg st3
          rw [h4] at hl4
          obtain ⟨l4, hl4e, hl4n⟩ := hl4
          cases res4 with
          | error e =>
            rw [hl4e, hl3e, hl2e, hlog1]
            cases uL <;> simp_all
          | ok u2 =>
            dsimp only
            rcases h5 : callbackStep fs false st4 with ⟨res5, st5⟩
            have hl5 := callbackStep_log fs false st4
            rw [h5] at hl5
            obtain ⟨l5, hl5e, hl5n⟩ := hl5
            cases res5 with
            | error e =>
              rw [hl5e, hl4e, hl3e, hl2e, hlog1]
              cases uL <;> simp_all
            | ok u3 =>
              dsimp only
              rw [releaseLock_log, hl5e, hl4e, hl3e, hl2e, hlog1]
              cases uL <;> simp_all
  · intro fs hash sr nc uL icb st hfd hlock hlast
    have hdup : dupCheckStep fs hash sr nc false true (acquireLock uL st) =
        (.error .digestRequired,
         { acquireLock uL st with log := (acquireLock uL st).log ++ [Ev.dupCheck] }) := by
      unfold dupCheckStep isDuplicateM
      rw [if_pos rfl, if_neg (by simp [hfd])]
      rw [isDuplicate_raw_throws hash _ _ 1 (by rw [acquireLock_dst]; exact hlast)]
    unfold copyToFirstEmptyRowM
    rw [if_neg (by simp [hlock]), hdup]
    dsimp only
    constructor
    · rfl
    · rw [acquireLock_dst]

/-- Witness for C10 at concrete runs: the no-callback run logs no
duplicate check even with `digest = true`; the callback run with
`digest = false` raises with the destination untouched. -/
theorem c10_callback_gating_witness :
    (Ev.dupCheck ∉ (copyToFirstEmptyRowM noFail hashId 2 2 true false true true exSt).2.log) ∧
    ((copyToFirstEmptyRowM noFail hashId 2 2 false true true true exSt).1 =
       .error .digestRequired ∧
     (copyToFirstEmptyRowM noFail hashId 2 2 false true true true exSt).2.dst = exSt.dst) :=
  ⟨c10_callback_gating.1 noFail hashId 2 2 true true true exSt rfl,
   c10_callback_gating.2 noFail hashId 2 2 true true exSt rfl rfl (by decide)⟩

/-- C1 counterexample: `useLock = true`, the `copyTo` call raises — the
run reports the error and the final state still holds the script lock
(the source has no try/finally; `releaseLock` is only on the success
path). -/
theorem c1_error_keeps_lock :
    exceptIsOk (copyToFirstEmptyRowM fsCopyFail hashId 2 2 false false true true exSt).1 = false ∧
    (copyToFirstEmptyRowM fsCopyFail hashId 2 2 false false true true exSt).2.locked = true := by
  decide

/-! # Groundwork for the sweep theorem (C9) -/

theorem le_lastIdxWhere (p : α → Bool) (d : α) (hd : p d = false) :
    ∀ (l : List α) (i : Nat), p (l.getD i d) = true → i + 1 ≤ lastIdxWhere p l := by
  intro l
  induction l with
  | nil =>
    intro i h
    rw [List.getD_nil] at h
    rw [h] at hd
    exact absurd hd (by simp)
  | cons a as ih =>
    intro i h
    cases i with
    | zero =>
      unfold lastIdxWhere
      dsimp only
      split
      · rw [List.getD_cons_zero] at h
        rw [if_pos h]
      · omega
    | succ j =>
      rw [List.getD_cons_succ] at h
      have := ih j h
      unfold lastIdxWhere
      dsimp only
      split
      · omega
      · omega

theorem lastIdxWhere_after (p : α → Bool) (d : α) (hd : p d = false) :
    ∀ (l : List α) (i : Nat), lastIdxWhere p l ≤ i → p (l.getD i d) = false := by
  intro l
  induction l with
  | nil => intro i _; rw [List.getD_nil]; exact hd
  | cons a as ih =>
    intro i hle
    unfold lastIdxWhere at hle
    dsimp only at hle
    cases i with
    | zero =>
      rw [List.getD_cons_zero]
      split at hle
      · split at hle
        · omega
        · simp_all
      · omega
    | succ j =>
      rw [List.getD_cons_succ]
      apply ih
      split at hle
      · omega
      · omega

theorem rowValsOf_length : ∀ (row : List Cell) (n : Nat), (rowValsOf row n).length = n := by
  intro row n
  induction n generalizing row with
  | zero => cases row <;> rfl
  | succ n ih => cases row <;> simp [rowValsOf, ih]

theorem rowValsOf_getD : ∀ (row : List Cell) (n j : Nat), j < n →
    (rowValsOf row n).getD j "" = (row.getD j blankCell).value := by
  intro row n
  induction n generalizing row with
  | zero => omega
  | succ n ih =>
    intro j hj
    cases row with
    | nil =>
      cases j with
      | zero => rfl
      | succ j' =>
        show (rowValsOf [] n).getD j' "" = _
        rw [ih [] j' (by omega)]
        rfl
    | cons c cs =>
      cases j with
      | zero => rfl
      | succ j' =>
        show (rowValsOf cs n).getD j' "" = _
        rw [ih cs j' (by omega)]
        rfl

theorem rowValsOf_writeVals_nil : ∀ (vs : List String),
    rowValsOf (writeVals [] vs) vs.length = vs := by
  intro vs
  induction vs with
  | nil => rfl
  | cons v vs ih =>
    show v :: rowValsOf (writeVals [] vs) vs.length = v :: vs
    rw [ih]

theorem hasValue_rowValsOf : ∀ (row : List Cell) (n : Nat),
    hasValue (rowValsOf row n) = true → rowHasContent row = true := by
  intro row n
  induction n generalizing row with
  | zero => intro h; exact absurd h (by simp [rowValsOf, hasValue])
  | succ n ih =>
    intro h
    cases row with
    | nil =>
      exfalso
      have : hasValue (rowValsOf [] n) = true := by
        simpa [rowValsOf, hasValue] using h
      have := ih [] this
      simp [rowHasContent] at this
    | cons c cs =>
      unfold hasValue at h
      rw [show rowValsOf (c :: cs) (n + 1) = c.value :: rowValsOf cs n from rfl] at h
      simp only [List.any_cons, Bool.or_eq_true] at h
      unfold rowHasContent
      simp only [List.any_cons, Bool.or_eq_true]
      rcases h with h | h
      · exact .inl h
      · exact .inr (by simpa [rowHasContent] using ih cs (by simpa [hasValue] using h))

theorem insertAt_getD_lt (rows : List α) (k i : Nat) (x d : α) (hk : k ≤ rows.length)
    (hi : i < k) :
    (rows.take k ++ [x] ++ rows.drop k).getD i d = rows.getD i d := by
  rw [List.append_assoc, List.getD_eq_getElem?_getD, List.getElem?_append,
      if_pos (by rw [List.length_take]; omega), List.getElem?_take, if_pos hi,
      ← List.getD_eq_getElem?_getD]

theorem insertAt_getD_self (rows : List α) (k : Nat) (x d : α) (hk : k ≤ rows.length) :
    (rows.take k ++ [x] ++ rows.drop k).getD k d = x := by
  rw [List.append_assoc, List.getD_append_right _ _ _ k (by rw [List.length_take]; omega)]
  rw [List.length_take, show k - k ⊓ rows.length = 0 from by omega]
  rfl

theorem insertAt_set_self (rows : List α) (k : Nat) (x y : α) (hk : k ≤ rows.length) :
    (rows.take k ++ [x] ++ rows.drop k).set k y = rows.take k ++ [y] ++ rows.drop k := by
  rw [List.append_assoc, List.set_append, List.length_take, if_neg (by omega),
      show k - k ⊓ rows.length = 0 from by omega]
  simp

theorem insertAt_length (rows : List α) (k : Nat) (x : α) (hk : k ≤ rows.length) :
    (rows.take k ++ [x] ++ rows.drop k).length = rows.length + 1 := by
  simp only [List.length_append, List.length_take, List.length_drop, List.length_singleton]
  omega

theorem rowAtN_delete_lt (s : Sheet) (r j : Nat) (hj1 : 1 ≤ j) (hj : j < r) :
    rowAtN (deleteRowSheet s r) j = rowAtN s j := by
  unfold rowAtN deleteRowSheet
  dsimp only
  rw [List.getD_eq_getElem?_getD, List.getD_eq_getElem?_getD, List.getElem?_append,
      List.length_take]
  by_cases hc : j - 1 < (r - 1) ⊓ s.rows.length
  · rw [if_pos hc, List.getElem?_take, if_pos (by omega)]
  · rw [if_neg hc, List.getElem?_drop]
    rw [List.getElem?_eq_none (l := s.rows) (n := j - 1) (by omega)]
    rw [List.getElem?_eq_none (by omega)]

theorem rowAtN_delete_ge (s : Sheet) (r j : Nat) (hr : 1 ≤ r) (hj : r ≤ j) :
    rowAtN (deleteRowSheet s r) j = rowAtN s (j + 1) := by
  unfold rowAtN deleteRowSheet
  dsimp only
  rw [show j + 1 - 1 = j from rfl]
  rw [List.getD_eq_getElem?_getD, List.getD_eq_getElem?_getD, List.getElem?_append,
      List.length_take]
  rw [if_neg (by omega), List.getElem?_drop]
  by_cases hc : r - 1 ≤ s.rows.length
  · rw [show r + (j - 1 - (r - 1) ⊓ s.rows.length) = j from by omega]
  · rw [List.getElem?_eq_none (l := s.rows) (n := j) (by omega)]
    rw [List.getElem?_eq_none (by omega)]

theorem appendValsSheet_getD_lt (s : Sheet) (vs : List String) (i : Nat) (d : List Cell)
    (hi : i < getLastRow s) :
    (appendValsSheet s vs).rows.getD i d = s.rows.getD i d := by
  unfold appendValsSheet
  exact insertAt_getD_lt s.rows (getLastRow s) i _ d (getLastRow_le_maxRows s) hi

theorem appendValsSheet_new (s : Sheet) (vs : List String) :
    (appendValsSheet s vs).rows.getD (getLastRow s) [] = writeVals [] vs := by
  unfold appendValsSheet
  exact insertAt_getD_self s.rows (getLastRow s) _ [] (getLastRow_le_maxRows s)

theorem appendValsSheet_length (s : Sheet) (vs : List String) :
    (appendValsSheet s vs).rows.length = s.rows.length + 1 := by
  unfold appendValsSheet
  exact insertAt_length s.rows (getLastRow s) _ (getLastRow_le_maxRows s)

theorem contains_append_self (s : Sheet) (vs : List String) :
    containsRowValues (appendValsSheet s vs) vs := by
  refine ⟨getLastRow s, ?_, ?_⟩
  · rw [appendValsSheet_length]
    have := getLastRow_le_maxRows s
    unfold getMaxRows at this
    omega
  · rw [appendValsSheet_new]
    exact rowValsOf_writeVals_nil vs

theorem contains_append_mono (s : Sheet) (vs vs' : List String)
    (hv : hasValue vs = true) (h : containsRowValues s vs) :
    containsRowValues (appendValsSheet s vs') vs := by
  obtain ⟨i, hi, hrow⟩ := h
  have hcont : rowHasContent (s.rows.getD i []) = true :=
    hasValue_rowValsOf _ _ (by rw [hrow]; exact hv)
  have hlt : i + 1 ≤ getLastRow s :=
    le_lastIdxWhere rowHasContent [] rfl s.rows i hcont
  refine ⟨i, ?_, ?_⟩
  · rw [appendValsSheet_length]; omega
  · rw [appendValsSheet_getD_lt s vs' i [] (by omega)]
    exact hrow

theorem le_foldr_max (l : List Nat) (x : Nat) (hx : x ∈ l) : x ≤ l.foldr max 0 := by
  induction l with
  | nil => cases hx
  | cons a as ih =>
    rcases List.mem_cons.mp hx with rfl | hm
    · exact le_max_left _ _
    · exact le_trans (ih hm) (le_max_right _ _)

theorem content_le_getLastRow (s : Sheet) (r : Nat) (h1 : 1 ≤ r)
    (h : rowHasContent (rowAtN s r) = true) : r ≤ getLastRow s := by
  unfold rowAtN at h
  have := le_lastIdxWhere rowHasContent ([] : List Cell) rfl s.rows (r - 1) h
  unfold getLastRow
  omega

theorem no_content_after_getLastRow (s : Sheet) (r : Nat) (h : getLastRow s < r) :
    rowHasContent (rowAtN s r) = false := by
  unfold rowAtN
  exact lastIdxWhere_after rowHasContent ([] : List Cell) rfl s.rows (r - 1)
    (by unfold getLastRow at h; omega)

/-- A row with content beyond the frozen rows shows a value inside the
`getLastColumn()`-wide window that `getRangesInUse` examines. -/
theorem hasValue_window (s : Sheet) (r : Nat)
    (hcont : rowHasContent (rowAtN s r) = true) :
    hasValue (rowValuesN s r (getLastColumn s)) = true := by
  unfold rowHasContent at hcont
  rw [List.any_eq_true] at hcont
  obtain ⟨c, hcm, hcv⟩ := hcont
  obtain ⟨j, hj, hcj⟩ := List.mem_iff_getElem.mp hcm
  have hgd : (rowAtN s r).getD j blankCell = c := by
    rw [List.getD_eq_getElem _ _ hj, hcj]
  have hlast : j + 1 ≤ lastCellIdx (rowAtN s r) := by
    apply le_lastIdxWhere _ blankCell rfl
    rw [hgd]
    exact hcv
  have hrl : r - 1 < s.rows.length := by
    by_contra hge
    have : rowAtN s r = [] := by
      unfold rowAtN
      exact List.getD_eq_default _ _ (by omega)
    rw [this] at hj
    exact absurd hj (by simp)
  have hcol : lastCellIdx (rowAtN s r) ≤ getLastColumn s := by
    unfold getLastColumn
    apply le_foldr_max
    apply List.mem_map_of_mem
    unfold rowAtN
    rw [List.getD_eq_getElem _ _ hrl]
    exact List.getElem_mem hrl
  have hjlt : j < (rowValsOf (rowAtN s r) (getLastColumn s)).length := by
    rw [rowValsOf_length]
    omega
  unfold hasValue rowValuesN
  rw [List.any_eq_true]
  refine ⟨(rowValsOf (rowAtN s r) (getLastColumn s))[j], List.getElem_mem hjlt, ?_⟩
  rw [← List.getD_eq_getElem _ "" hjlt, rowValsOf_getD _ _ _ (by omega), hgd]
  simpa using hcv

theorem getRangesInUse_true (s : Sheet) :
    getRangesInUse s true =
      (List.range (getLastRow s - s.frozenRows)).filterMap (fun i =>
        if hasValue (rowValuesN s (i + 1 + s.frozenRows) (getLastColumn s)) = true then
          some (i + 1 + s.frozenRows)
        else none) := rfl

theorem mem_getRangesInUse (s : Sheet) (r : Nat) :
    r ∈ getRangesInUse s true ↔
    (s.frozenRows < r ∧ r ≤ getLastRow s ∧
     hasValue (rowValuesN s r (getLastColumn s)) = true) := by
  rw [getRangesInUse_true, List.mem_filterMap]
  constructor
  · rintro ⟨i, hi, hf⟩
    rw [List.mem_range] at hi
    split at hf
    · rename_i hcond
      obtain rfl := Option.some.inj hf
      exact ⟨by omega, by omega, hcond⟩
    · exact absurd hf (by simp)
  · rintro ⟨h1, h2, h3⟩
    refine ⟨r - 1 - s.frozenRows, ?_, ?_⟩
    · rw [List.mem_range]
      omega
    · rw [show r - 1 - s.frozenRows + 1 + s.frozenRows = r from by omega, if_pos h3]

theorem getRangesInUse_sorted (s : Sheet) :
    List.Pairwise (· < ·) (getRangesInUse s true) := by
  rw [getRangesInUse_true]
  apply List.Pairwise.filterMap _ ?_ (List.pairwise_lt_range _)
  intro a a' hlt b hb b' hb'
  split at hb
  · split at hb'
    · obtain rfl := Option.some.inj hb
      obtain rfl := Option.some.inj hb'
      omega
    · exact absurd hb' (by simp)
  · exact absurd hb (by simp)

theorem digestStep_noDigest (fs : FailSpec) (hash : String → String) (nc row : Nat)
    (st : EngineState) : digestStep fs hash nc row false st = (.ok (), st) := rfl

theorem callbackStep_noDup (fs : FailSpec) (st : EngineState) :
    callbackStep fs false st = (.ok (), st) := rfl

/-- Writing the copied values into the blank row just reserved by the
placement yields exactly the append of those values after the last content
row. -/
theorem updateRow_inserted (s : Sheet) (vs : List String) :
    updateRowValues
      { s with rows := s.rows.take (getLastRow s) ++ [[]] ++ s.rows.drop (getLastRow s) }
      (getLastRow s + 1) vs = appendValsSheet s vs := by
  unfold updateRowValues appendValsSheet rowAtN
  dsimp only
  congr 1
  rw [show getLastRow s + 1 - 1 = getLastRow s from rfl]
  rw [insertAt_getD_self s.rows (getLastRow s) [] [] (getLastRow_le_maxRows s)]
  exact insertAt_set_self s.rows (getLastRow s) [] _ (getLastRow_le_maxRows s)

theorem acquireLock_true (st : EngineState) :
    acquireLock true st = { st with locked := true, log := st.log ++ [Ev.lockAcquire] } := rfl

theorem releaseLock_true (st : EngineState) :
    releaseLock true st = { st with locked := false, log := st.log ++ [Ev.lockRelease] } := rfl

theorem releaseLock_false (st : EngineState) : releaseLock false st = st := rfl

theorem acquireLock_false (st : EngineState) : acquireLock false st = st := rfl

theorem placeStep_noFail (icb : Bool) (st : EngineState) :
    placeStep noFail icb st =
      (match getFirstEmptyRow st.dst 1 icb with
       | .error e => (.error e, st)
       | .ok (r, dst') => (.ok r, { st with dst := dst', log := st.log ++ [Ev.place r] })) :=
  rfl

theorem copyStep_noFail (sr nc row : Nat) (st : EngineState) :
    copyStep noFail sr nc row st =
      (.ok (), { st with dst := updateRowValues st.dst row (rowValuesN st.src sr nc),
                         log := st.log ++ [Ev.copyRow row] }) := rfl

theorem deleteStep_noFail (sr : Nat) (st : EngineState) :
    deleteStep noFail sr st =
      (.ok (), { st with src := deleteRowSheet st.src sr,
                         log := st.log ++ [Ev.deleteSrc sr] }) := rfl

/-- One `moveToFirstEmptyRow(range, sheet)` call of the sweep loop, run on
a free lock: it appends the source row's leading values after the
destination's last content row, deletes the source row, and ends with the
lock free again. -/
theorem moveStep_eq (hash : String → String) (sr nc : Nat) (st : EngineState)
    (h : st.locked = false) :
    moveToFirstEmptyRowM noFail hash sr nc false false true true st =
      (.ok (getLastRow st.dst + 1),
       { src := deleteRowSheet st.src sr,
         dst := appendValsSheet st.dst (rowValuesN st.src sr nc),
         locked := false,
         log := st.log ++ [Ev.lockAcquire, Ev.place (getLastRow st.dst + 1),
                           Ev.copyRow (getLastRow st.dst + 1), Ev.deleteSrc sr,
                           Ev.lockRelease] }) := by
  unfold moveToFirstEmptyRowM copyToFirstEmptyRowM
  rw [if_neg (by simp [h]), if_neg (by simp)]
  simp only [acquireLock_true, acquireLock_false, dupCheckStep_noCallback, placeStep_noFail,
             getFirstEmptyRow_append_eq, copyStep_noFail, digestStep_noDigest,
             callbackStep_noDup, releaseLock_false, deleteStep_noFail, releaseLock_true]
  rw [updateRow_inserted]
  simp

/-- The sweep loop over a strictly decreasing list of source rows, each
still holding a value at move time, moves every listed row's values into
the destination and leaves no non-frozen content row in the source. -/
theorem sweepMoveLoop_spec (hash : String → String) (cols0 : Nat) :
    ∀ (l : List Nat) (st : EngineState),
      st.locked = false →
      List.Pairwise (· > ·) l →
      (∀ r ∈ l, 1 ≤ r ∧ hasValue (rowValuesN st.src r cols0) = true) →
      (∀ r, st.src.frozenRows < r → rowHasContent (rowAtN st.src r) = true → r ∈ l) →
      ∃ st', sweepMoveLoop noFail hash cols0 l st = (.ok (), st') ∧
        st'.locked = false ∧
        st'.src.frozenRows = st.src.frozenRows ∧
        (∀ r ∈ l, containsRowValues st'.dst (rowValuesN st.src r cols0)) ∧
        (∀ vs, hasValue vs = true → containsRowValues st.dst vs →
           containsRowValues st'.dst vs) ∧
        (∀ r, st.src.frozenRows < r → rowHasContent (rowAtN st'.src r) = false) := by
  intro l
  induction l with
  | nil =>
    intro st hlock _ _ hcov
    refine ⟨st, rfl, hlock, rfl, by simp, fun _ _ hc => hc, ?_⟩
    intro r hr
    cases hcontent : rowHasContent (rowAtN st.src r) with
    | false => rfl
    | true => exact absurd (hcov r hr hcontent) (List.not_mem_nil r)
  | cons r0 l' ih =>
    intro st hlock hpw hval hcov
    obtain ⟨hr01, hval0⟩ := hval r0 (List.mem_cons_self _ _)
    have hhead : ∀ b ∈ l', b < r0 := (List.pairwise_cons.mp hpw).1
    have hpw' := (List.pairwise_cons.mp hpw).2
    unfold sweepMoveLoop
    rw [moveStep_eq hash r0 cols0 st hlock]
    dsimp only
    have hpres : ∀ j, 1 ≤ j → j < r0 →
        rowValuesN (deleteRowSheet st.src r0) j cols0 = rowValuesN st.src j cols0 := by
      intro j hj1 hj2
      unfold rowValuesN
      rw [rowAtN_delete_lt st.src r0 j hj1 hj2]
    obtain ⟨st', hrun, hlock', hfz', hcont', hmono', hnone'⟩ :=
      ih { src := deleteRowSheet st.src r0,
           dst := appendValsSheet st.dst (rowValuesN st.src r0 cols0),
           locked := false,
           log := st.log ++ [Ev.lockAcquire, Ev.place (getLastRow st.dst + 1),
                             Ev.copyRow (getLastRow st.dst + 1), Ev.deleteSrc r0,
                             Ev.lockRelease] }
        rfl hpw'
        (by
          intro r' hr'
          obtain ⟨h1, h2⟩ := hval r' (List.mem_cons_of_mem _ hr')
          refine ⟨h1, ?_⟩
          dsimp only
          rw [hpres r' h1 (hhead r' hr')]
          exact h2)
        (by
          intro r'' hfr hcont
          dsimp only at hfr hcont
          rw [show (deleteRowSheet st.src r0).frozenRows = st.src.frozenRows from rfl] at hfr
          by_cases hlt : r'' < r0
          · rw [rowAtN_delete_lt st.src r0 r'' (by omega) hlt] at hcont
            rcases List.mem_cons.mp (hcov r'' hfr hcont) with rfl | hm
            · omega
            · exact hm
          · exfalso
            rw [rowAtN_delete_ge st.src r0 r'' (by omega) (by omega)] at hcont
            rcases List.mem_cons.mp (hcov (r'' + 1) (by omega) hcont) with heq | hm
            · omega
            · have := hhead _ hm
              omega)
    refine ⟨st', hrun, hlock', by simpa using hfz', ?_, ?_, ?_⟩
    · intro r hr
      rcases List.mem_cons.mp hr with rfl | hm
      · exact hmono' _ hval0 (contains_append_self st.dst _)
      · have := hcont' r hm
        dsimp only at this
        rw [hpres r (hval r (List.mem_cons_of_mem _ hm)).1 (hhead r hm)] at this
        exact this
    · intro vs hv hc
      exact hmono' vs hv (contains_append_mono st.dst vs _ hv hc)
    · intro r hr
      apply hnone'
      dsimp only
      exact hr

/-- C9: `sweep(sheetFrom, sheetTo, deleteFromSource = true)` processes the
collected non-empty rows in reverse order, so deletions never shift a
not-yet-processed row; afterwards the destination contains every collected
row's values and the source retains no non-frozen row with content. -/
theorem c9_sweep_moves_all (hash : String → String) (st : EngineState)
    (h : st.locked = false) :
    ∃ st', sweep noFail hash true st = (.ok (), st') ∧
      (∀ r ∈ getRangesInUse st.src true,
         containsRowValues st'.dst (rowValuesN st.src r (getLastColumn st.src))) ∧
      (∀ r, st.src.frozenRows < r → rowHasContent (rowAtN st'.src r) = false) := by
  obtain ⟨st', hrun, -, -, hcont, -, hnone⟩ :=
    sweepMoveLoop_spec hash (getLastColumn st.src) (getRangesInUse st.src true).reverse st h
      (by
        rw [List.pairwise_reverse]
        exact getRangesInUse_sorted st.src)
      (by
        intro r hr
        rw [List.mem_reverse, mem_getRangesInUse] at hr
        exact ⟨by omega, hr.2.2⟩)
      (by
        intro r hfr hcont
        rw [List.mem_reverse, mem_getRangesInUse]
        exact ⟨hfr, content_le_getLastRow st.src r (by omega) hcont,
               hasValue_window st.src r hcont⟩)
  refine ⟨st', ?_, ?_, hnone⟩
  · simpa [sweep] using hrun
  · intro r hr
    exact hcont r (List.mem_reverse.mpr hr)

/-- Witness for C9 at a concrete source (frozen header, data rows 2 and 4
with a gap at row 3) and destination (one data row). -/
theorem c9_sweep_moves_all_witness :
    ∃ st', sweep noFail hashId true exSt = (.ok (), st') ∧
      (∀ r ∈ getRangesInUse exSt.src true,
         containsRowValues st'.dst (rowValuesN exSt.src r (getLastColumn exSt.src))) ∧
      (∀ r, exSt.src.frozenRows < r → rowHasContent (rowAtN st'.src r) = false) :=
  c9_sweep_moves_all hashId exSt rfl

end FormUtils
